import Mathlib

/-!
# Verification of the nexus-util reconciliation and transfer engine

Shallow embedding of the core of `nexus-util`: the diff reconciliation
engine (`cmd/asset/diff.go`), the paginated remote lister
(`nexus/nexus.go`, `GetFilesInDirectory`) and the sync transfer loop
(`cmd/sync/sync.go`).

Modelling conventions:
* Go strings are Lean `String`s; the Go `strings` / `unicode` helpers the
  code uses are re-implemented below on the character list of a `String`
  (the repository only ever feeds them ASCII paths, algorithm names and
  hex digests, so the ASCII fragment of Go's Unicode handling is what is
  embedded).
* Go maps are association lists `List (String × v)`; a Go map read
  `m[k]`, which yields the zero value `""` for a missing key, is `mapGet`.
* HTTP and filesystem effects (downloading content, hashing a local
  file, HEAD existence checks, transfers) are oracles passed in as
  explicit function parameters, and every invocation of a content
  download / hash computation is recorded in the result, so that
  "no network call happens" properties can be stated and proved.
* Fallible Go functions returning `(T, error)` become
  `Except String T`.
-/

namespace NexusUtil

/-! ## ASCII fragment of the Go string primitives used by the engine -/

/-- Go `strings.HasPrefix` on character lists: does the first list start
with the second? -/
def listStartsWith : List Char → List Char → Bool
  | _, [] => true
  | [], _ :: _ => false
  | c :: cs, d :: ds => c == d && listStartsWith cs ds

theorem listStartsWith_iff (s pre : List Char) :
    listStartsWith s pre = true ↔ ∃ t, s = pre ++ t := by
  induction pre generalizing s with
  | nil => simp [listStartsWith]
  | cons d ds ih =>
    cases s with
    | nil => simp [listStartsWith]
    | cons c cs =>
      simp only [listStartsWith, Bool.and_eq_true, beq_iff_eq, ih cs]
      constructor
      · rintro ⟨rfl, t, rfl⟩; exact ⟨t, rfl⟩
      · rintro ⟨t, h⟩
        injection h with h1 h2
        exact ⟨h1, t, h2⟩

theorem length_le_of_listStartsWith {s pre : List Char}
    (h : listStartsWith s pre = true) : pre.length ≤ s.length := by
  obtain ⟨t, rfl⟩ := (listStartsWith_iff s pre).mp h
  simp

/-- Go `strings.HasPrefix(s, pre)`. -/
def goStartsWith (s pre : String) : Bool :=
  listStartsWith s.data pre.data

/-- Go `strings.TrimPrefix(s, pre)`: strip `pre` from the front of `s` when
present, otherwise return `s` unchanged. -/
def goStripLeft (s pre : String) : String :=
  if goStartsWith s pre then ⟨s.data.drop pre.data.length⟩ else s

/-- Go `strings.ReplaceAll(s, "\\", "/")` (the only `ReplaceAll` the diff
code performs; a single-character pattern is a character map). -/
def backslashToSlash (s : String) : String :=
  ⟨s.data.map (fun c => if c == '\\' then '/' else c)⟩

/-- Trim characters satisfying `p` from both ends of a character list
(the shape of Go's `strings.Trim` / `strings.TrimSpace`). -/
def listTrim (p : Char → Bool) (l : List Char) : List Char :=
  ((l.dropWhile p).reverse.dropWhile p).reverse

/-- Go `strings.TrimSpace s` (ASCII whitespace). -/
def goTrimSpace (s : String) : String :=
  ⟨listTrim (·.isWhitespace) s.data⟩

/-- Go `strings.Trim(s, "/")`. -/
def trimSlashes (s : String) : String :=
  ⟨listTrim (· == '/') s.data⟩

/-- Go `strings.TrimSuffix(s, "/")`: remove one trailing slash if present. -/
def trimSuffixSlash (s : String) : String :=
  if s.data.getLast? == some '/' then ⟨s.data.dropLast⟩ else s

/-- Go `strings.ToLower` restricted to ASCII, which is where the engine uses
it (algorithm names and hex digests); Lean's `Char.toLower` performs the
same A–Z shift. -/
def goToLower (s : String) : String :=
  ⟨s.data.map Char.toLower⟩

/-- Go `strings.EqualFold` on the ASCII fragment: case-insensitive
equality. -/
def goEqualFold (s t : String) : Bool :=
  goToLower s == goToLower t

theorem charToLower_toLower (c : Char) : c.toLower.toLower = c.toLower := by
  by_cases h : c.toNat ≥ 65 ∧ c.toNat ≤ 90
  · have h1 : c.toLower = Char.ofNat (c.toNat + 32) := by
      simp [Char.toLower, h]
    have hv : (Char.ofNat (c.toNat + 32)).toNat = c.toNat + 32 := by
      unfold Char.ofNat
      split
      · rfl
      · rename_i hn
        exact absurd (Or.inl (by omega)) hn
    rw [h1]
    simp only [Char.toLower, hv]
    rw [if_neg (by omega)]
  · have h1 : c.toLower = c := by
      simp only [Char.toLower]
      exact if_neg h
    rw [h1, h1]

theorem goToLower_toLower (s : String) :
    goToLower (goToLower s) = goToLower s := by
  simp only [goToLower, List.map_map]
  congr 1
  induction s.data with
  | nil => rfl
  | cons c cs ih => simp [Function.comp, charToLower_toLower, ih]

theorem goEqualFold_toLower (s t : String) :
    goEqualFold (goToLower s) (goToLower t) = goEqualFold s t := by
  simp [goEqualFold, goToLower_toLower]

/-- Go map read `m[k]` on a `map[string]string` represented as an
association list: the zero value `""` when the key is absent. -/
def mapGet (m : List (String × String)) (k : String) : String :=
  match m.find? (fun kv => kv.1 == k) with
  | some kv => kv.2
  | none => ""

theorem mapGet_nil (k : String) : mapGet [] k = "" := rfl

/-! ## Data model (`nexus/nexus.go`, `cmd/asset/diff.go`) -/

/-- The `nexus.Asset` record, one item of the search response.  `path` and
`downloadUrl` are the fields declared in `nexus/nexus.go`.
The `checksum` field is modelled from the spec: each search-response item
also carries `checksum:{algo:hex,...}`, a `map[string]string` that may be
`nil` (hence `Option`), which `cmd/asset/diff.go` reads as
`Asset.Checksum`; the declaration of that field is not part of the
source tree snapshot. -/
structure Asset where
  path : String
  downloadUrl : String
  checksum : Option (List (String × String))
deriving DecidableEq

/-- The `fileEntry` struct of `cmd/asset/diff.go`: a relative path plus either a
remote asset (a Go pointer, here `Option`) or a local filesystem path
(`""` meaning absent, as in Go). -/
structure FileEntry where
  relativePath : String
  asset : Option Asset
  localPath : String
deriving DecidableEq

/-- The `hashPreference` list of `cmd/asset/diff.go`. -/
def hashPreference : List String := ["sha256", "sha1", "md5"]

/-- Embeds `normalizeChecksumMap` of `cmd/asset/diff.go`: drop entries with an
empty digest, lowercase keys and values. -/
def normalizeChecksumMap (input : List (String × String)) : List (String × String) :=
  (input.filter (fun kv => kv.2 != "")).map (fun kv => (goToLower kv.1, goToLower kv.2))

/-- The two opening blocks of `comparableHashes`: the checksum map an
entry reports — empty unless the entry is asset-backed with a non-nil
checksum map — normalized by `normalizeChecksumMap`. -/
def reportedHashes (e : FileEntry) : List (String × String) :=
  match e.asset with
  | some a =>
    match a.checksum with
    | some m => normalizeChecksumMap m
    | none => []
  | none => []

/-! ## Checksum resolver (`comparableHashes`) -/

/-- Oracles for the two content-hashing effects reachable from
`computeHashForEntry`.  `remoteHash url alg` is modelled from the spec:
`NexusClient.ComputeHashFromDownloadURL` downloads the asset's full
content via its download URL and hashes the stream (the method itself is
not part of the source tree snapshot, only its caller is).
`localHash path alg` stands for `computeLocalHash`: stream-hash the
local file at `path`. -/
structure HashEnv where
  remoteHash : String → String → Except String String
  localHash : String → String → Except String String

/-- Embeds `computeHashForEntry` of `cmd/asset/diff.go`.  `clientPresent`
models the nil-ness of the `*nexus.NexusClient` argument. -/
def computeHashForEntry (env : HashEnv) (entry : FileEntry)
    (clientPresent : Bool) (algorithm : String) : Except String String :=
  match entry.asset with
  | some a =>
    if a.downloadUrl = "" then
      .error ("download URL missing for " ++ a.path)
    else if !clientPresent then
      .error ("nexus client is required to hash " ++ a.path)
    else
      env.remoteHash a.downloadUrl algorithm
  | none =>
    if entry.localPath = "" then
      .error ("local path is missing for " ++ entry.relativePath)
    else
      env.localHash entry.localPath algorithm

/-- Embeds `comparableHashes` of `cmd/asset/diff.go`.  Returns the chosen
algorithm and the two comparable digest strings; the fourth component
records every `computeHashForEntry` invocation (entry and algorithm) the
call performed, which is the function's entire download/hash surface.
The two Go `for`-loops over `hashPreference` (the first returning from
inside the loop, the second selecting `chosen` and falling back to
`hashPreference[0]`) are the two `find?`s; writing a freshly computed
digest into the local map and then returning the map entry is returning
the lowercased digest directly. -/
def comparableHashes (env : HashEnv) (source target : FileEntry)
    (sourceClient targetClient : Bool) :
    Except String (String × String × String × List (FileEntry × String)) :=
  let sourceHashes := reportedHashes source
  let targetHashes := reportedHashes target
  match hashPreference.find?
      (fun a => mapGet sourceHashes a != "" && mapGet targetHashes a != "") with
  | some algorithm =>
    .ok (algorithm, mapGet sourceHashes algorithm, mapGet targetHashes algorithm, [])
  | none =>
    let chosen :=
      match hashPreference.find?
          (fun a => mapGet sourceHashes a != "" || mapGet targetHashes a != "") with
      | some a => a
      | none => hashPreference.headI
    let sourceStep : Except String (String × List (FileEntry × String)) :=
      if mapGet sourceHashes chosen = "" then
        match computeHashForEntry env source sourceClient chosen with
        | .error e => .error e
        | .ok h => .ok (goToLower h, [(source, chosen)])
      else .ok (mapGet sourceHashes chosen, [])
    let targetStep : Except String (String × List (FileEntry × String)) :=
      if mapGet targetHashes chosen = "" then
        match computeHashForEntry env target targetClient chosen with
        | .error e => .error e
        | .ok h => .ok (goToLower h, [(target, chosen)])
      else .ok (mapGet targetHashes chosen, [])
    match sourceStep with
    | .error e => .error e
    | .ok (sh, c1) =>
      match targetStep with
      | .error e => .error e
      | .ok (th, c2) => .ok (chosen, sh, th, c1 ++ c2)

/-- Step-1 short-circuit of the checksum resolver: when the first
algorithm in preference order has a digest on both sides, it is returned
with those digests and no compute call is made. -/
theorem comparableHashes_shortCircuit (env : HashEnv) (source target : FileEntry)
    (sc tc : Bool) (algorithm : String)
    (h : hashPreference.find? (fun a =>
        mapGet (reportedHashes source) a != "" &&
        mapGet (reportedHashes target) a != "") = some algorithm) :
    comparableHashes env source target sc tc =
      .ok (algorithm, mapGet (reportedHashes source) algorithm,
           mapGet (reportedHashes target) algorithm, []) := by
  unfold comparableHashes
  simp only [h]

/-- When neither side reports any digest, the resolver defaults to
sha256 and computes it for both sides. -/
theorem comparableHashes_noReported (env : HashEnv) (source target : FileEntry)
    (sc tc : Bool) (h1 h2 : String)
    (hs : reportedHashes source = [])
    (ht : reportedHashes target = [])
    (hcs : computeHashForEntry env source sc "sha256" = .ok h1)
    (hct : computeHashForEntry env target tc "sha256" = .ok h2) :
    comparableHashes env source target sc tc =
      .ok ("sha256", goToLower h1, goToLower h2,
           [(source, "sha256"), (target, "sha256")]) := by
  unfold comparableHashes
  rw [hs, ht]
  simp only [hashPreference, List.find?, mapGet_nil]
  norm_num
  rw [hcs, hct]
  rfl

/-! ## Path normalizer / exclusion filter (`cmd/asset/diff.go`) -/

/-- Go's `path.Base`: last element of a slash-separated path, `"."` for
the empty path, `"/"` for an all-slash path. -/
def pathBase (p : String) : String :=
  if p = "" then "."
  else
    let r := p.data.reverse.dropWhile (· == '/')
    if r = [] then "/" else ⟨(r.takeWhile (· != '/')).reverse⟩

/-- Embeds `normalizeRepoPath` of `cmd/asset/diff.go`: trim surrounding
whitespace, convert backslashes to forward slashes, strip leading and
trailing slashes. -/
def normalizeRepoPath (value : String) : String :=
  trimSlashes (backslashToSlash (goTrimSpace value))

/-- Embeds `relativeAssetPath` of `cmd/asset/diff.go`. -/
def relativeAssetPath (assetPath root : String) : String :=
  let r := normalizeRepoPath root
  let ap := backslashToSlash assetPath
  if r = "" then ap
  else if ap = r then pathBase ap
  else if goStartsWith ap (r ++ "/") then goStripLeft ap (r ++ "/")
  else ap

/-- The relativization rule in the words of the claim (the prefix-strip
case stated first, then the exact-match case, then the unchanged
fallback), for comparison against `relativeAssetPath`. -/
def relativeAssetPathClaimed (assetPath root : String) : String :=
  let r := normalizeRepoPath root
  let ap := backslashToSlash assetPath
  if goStartsWith ap (r ++ "/") then goStripLeft ap (r ++ "/")
  else if ap = r then pathBase ap
  else ap

/-- Embeds `filterExcludedFiles` of `cmd/asset/diff.go`: keep exactly the
entries whose key does not start with `excludePath + "/"`. -/
def filterExcludedFiles (files : List (String × FileEntry)) (excludePath : String) :
    List (String × FileEntry) :=
  files.filter (fun kv => !(goStartsWith kv.1 (excludePath ++ "/")))

theorem goStartsWith_self_slash_false {ap r : String} (heq : ap = r) :
    goStartsWith ap (r ++ "/") = false := by
  subst heq
  by_contra hcon
  have hb : goStartsWith ap (ap ++ "/") = true := by
    simpa using hcon
  have hlen := @length_le_of_listStartsWith ap.data (ap ++ "/").data hb
  have : (ap ++ "/").data = ap.data ++ ['/'] := by
    simp
  rw [this] at hlen
  simp at hlen

/-- On every root whose normalized form is non-empty, the implementation
agrees with the claimed rule. -/
theorem relativeAssetPath_agrees (assetPath root : String)
    (h : normalizeRepoPath root ≠ "") :
    relativeAssetPath assetPath root = relativeAssetPathClaimed assetPath root := by
  unfold relativeAssetPath relativeAssetPathClaimed
  by_cases heq : backslashToSlash assetPath = normalizeRepoPath root
  · have hsw : goStartsWith (normalizeRepoPath root) (normalizeRepoPath root ++ "/") = false :=
      goStartsWith_self_slash_false rfl
    simp [h, heq, hsw]
  · simp only [if_neg h, if_neg heq]

/-! ## Sorting at the end of `runDiff` -/

/-- Insertion step of an insertion sort. -/
def insertBy {α : Type} (le : α → α → Bool) (x : α) : List α → List α
  | [] => [x]
  | y :: ys => if le x y then x :: y :: ys else y :: insertBy le x ys

/-- Models the `sort.Strings` / `sort.Slice` calls closing `runDiff`:
only the fact that sorting permutes the list matters for the properties
proved here. -/
def sortBy {α : Type} (le : α → α → Bool) (l : List α) : List α :=
  l.foldr (insertBy le) []

theorem insertBy_perm {α : Type} (le : α → α → Bool) (x : α) (l : List α) :
    List.Perm (insertBy le x l) (x :: l) := by
  induction l with
  | nil => rfl
  | cons y ys ih =>
    unfold insertBy
    by_cases hle : le x y = true
    · simp [hle]
    · simp only [Bool.not_eq_true] at hle
      simp only [hle, if_false]
      exact ((ih.cons y).trans (List.Perm.swap x y ys))

theorem sortBy_perm {α : Type} (le : α → α → Bool) (l : List α) :
    List.Perm (sortBy le l) l := by
  induction l with
  | nil => rfl
  | cons x xs ih =>
    exact (insertBy_perm le x (sortBy le xs)).trans (ih.cons x)

/-! ## Reconciliation engine (`runDiff`, `cmd/asset/diff.go`) -/

/-- The `diffFile` record of `cmd/asset/diff.go`: one entry of the `identical`
list. -/
structure DiffFile where
  path : String
  algorithm : String
  hash : String
deriving DecidableEq

/-- The `diffMismatch` record of `cmd/asset/diff.go`: one entry of the `different`
list. -/
structure DiffMismatch where
  path : String
  algorithm : String
  sourceHash : String
  targetHash : String
deriving DecidableEq

/-- The `diffResult` record of `cmd/asset/diff.go`. -/
structure DiffResult where
  identical : List DiffFile
  onlySource : List String
  onlyTarget : List String
  different : List DiffMismatch
deriving DecidableEq

/-- Go map read with presence flag, `entry, ok := m[k]`, on a path-keyed
entry map. -/
def lookupEntry (m : List (String × FileEntry)) (k : String) : Option FileEntry :=
  match m.find? (fun kv => kv.1 == k) with
  | some kv => some kv.2
  | none => none

/-- The first loop of `runDiff`: each source entry becomes only-source,
identical or different; any `comparableHashes` error aborts the whole
comparison.  The pair is identical when `strings.EqualFold` accepts the
two digests, and digests are stored lowercased. -/
def sourcePass (env : HashEnv) (sourceClient targetClient : Bool)
    (targetFiles : List (String × FileEntry)) :
    List (String × FileEntry) →
    Except String (List DiffFile × List String × List DiffMismatch)
  | [] => .ok ([], [], [])
  | (relPath, sourceEntry) :: rest =>
    match lookupEntry targetFiles relPath with
    | none =>
      match sourcePass env sourceClient targetClient targetFiles rest with
      | .error e => .error e
      | .ok (idl, os, df) => .ok (idl, relPath :: os, df)
    | some targetEntry =>
      match comparableHashes env sourceEntry targetEntry sourceClient targetClient with
      | .error e => .error ("failed to compare " ++ relPath ++ ": " ++ e)
      | .ok (algorithm, sourceHash, targetHash, _calls) =>
        match sourcePass env sourceClient targetClient targetFiles rest with
        | .error e => .error e
        | .ok (idl, os, df) =>
          if goEqualFold sourceHash targetHash then
            .ok (⟨relPath, algorithm, goToLower sourceHash⟩ :: idl, os, df)
          else
            .ok (idl, os,
                 ⟨relPath, algorithm, goToLower sourceHash, goToLower targetHash⟩ :: df)

/-- The second loop of `runDiff`: target keys with no source entry. -/
def targetOnlyPass (sourceFiles targetFiles : List (String × FileEntry)) : List String :=
  (targetFiles.filter (fun kv => (lookupEntry sourceFiles kv.1).isNone)).map (fun kv => kv.1)

/-- The reconciliation core of `runDiff`: both loops followed by the
four lexicographic sorts.  The CLI scaffolding around it (flag handling,
config loading, client construction, JSON encoding) supplies the two
entry maps and consumes the result and is not modelled. -/
def runDiffCore (env : HashEnv) (sourceClient targetClient : Bool)
    (sourceFiles targetFiles : List (String × FileEntry)) :
    Except String DiffResult :=
  match sourcePass env sourceClient targetClient targetFiles sourceFiles with
  | .error e => .error e
  | .ok (idl, os, df) =>
    .ok { identical := sortBy (fun a b => decide (a.path < b.path)) idl
          onlySource := sortBy (fun a b => decide (a < b)) os
          onlyTarget := sortBy (fun a b => decide (a < b)) (targetOnlyPass sourceFiles targetFiles)
          different := sortBy (fun a b => decide (a.path < b.path)) df }

/-- All relative paths mentioned in a diff result, across the four
lists. -/
def allPaths (r : DiffResult) : List String :=
  r.identical.map (fun f => f.path) ++ r.onlySource ++ r.onlyTarget ++
    r.different.map (fun m => m.path)

theorem lookupEntry_eq_none_iff (m : List (String × FileEntry)) (k : String) :
    lookupEntry m k = none ↔ k ∉ m.map (fun kv => kv.1) := by
  unfold lookupEntry
  cases hf : m.find? (fun kv => kv.1 == k) with
  | none =>
    simp only [true_iff]
    rw [List.find?_eq_none] at hf
    intro hmem
    obtain ⟨kv, hkv, hfst⟩ := List.mem_map.mp hmem
    exact hf kv hkv (by simpa using hfst)
  | some kv =>
    have hmem := List.mem_of_find?_eq_some hf
    have hp1 : kv.1 = k := by simpa using List.find?_some hf
    have hk : k ∈ m.map (fun kv => kv.1) := hp1 ▸ List.mem_map.mpr ⟨kv, hmem, rfl⟩
    simp [hk]

theorem sourcePass_count (env : HashEnv) (sc tc : Bool)
    (targetFiles : List (String × FileEntry)) (p : String) :
    ∀ (sourceFiles : List (String × FileEntry)) (idl : List DiffFile)
      (os : List String) (df : List DiffMismatch),
      sourcePass env sc tc targetFiles sourceFiles = .ok (idl, os, df) →
      ((idl.map (fun f => f.path)) ++ os ++ (df.map (fun m => m.path))).count p =
        (sourceFiles.map (fun kv => kv.1)).count p := by
  intro sourceFiles
  induction sourceFiles with
  | nil =>
    intro idl os df h
    simp only [sourcePass, Except.ok.injEq, Prod.mk.injEq] at h
    obtain ⟨h1, h2, h3⟩ := h
    subst h1; subst h2; subst h3
    simp
  | cons kv rest ih =>
    intro idl os df h
    obtain ⟨relPath, entry⟩ := kv
    simp only [sourcePass] at h
    cases hl : lookupEntry targetFiles relPath with
    | none =>
      simp only [hl] at h
      cases hr : sourcePass env sc tc targetFiles rest with
      | error e => simp only [hr] at h; exact Except.noConfusion h
      | ok trip =>
        obtain ⟨idl0, os0, df0⟩ := trip
        simp only [hr, Except.ok.injEq, Prod.mk.injEq] at h
        obtain ⟨h1, h2, h3⟩ := h
        subst h1; subst h2; subst h3
        have hc := ih idl0 os0 df0 hr
        by_cases hp : p = relPath <;>
          simp [List.count_append, List.count_cons, hp, Ne.symm] at hc ⊢ <;> omega
    | some targetEntry =>
      simp only [hl] at h
      cases hc : comparableHashes env entry targetEntry sc tc with
      | error e => simp only [hc] at h; exact Except.noConfusion h
      | ok quad =>
        obtain ⟨alg, sh, th, calls⟩ := quad
        simp only [hc] at h
        cases hr : sourcePass env sc tc targetFiles rest with
        | error e => simp only [hr] at h; exact Except.noConfusion h
        | ok trip =>
          obtain ⟨idl0, os0, df0⟩ := trip
          simp only [hr] at h
          have hcount := ih idl0 os0 df0 hr
          by_cases heqf : goEqualFold sh th = true
          · rw [if_pos heqf] at h
            simp only [Except.ok.injEq, Prod.mk.injEq] at h
            obtain ⟨h1, h2, h3⟩ := h
            subst h1; subst h2; subst h3
            by_cases hp : p = relPath <;>
              simp [List.count_append, List.count_cons, hp, Ne.symm] at hcount ⊢ <;> omega
          · rw [if_neg heqf] at h
            simp only [Except.ok.injEq, Prod.mk.injEq] at h
            obtain ⟨h1, h2, h3⟩ := h
            subst h1; subst h2; subst h3
            by_cases hp : p = relPath <;>
              simp [List.count_append, List.count_cons, hp, Ne.symm] at hcount ⊢ <;> omega

theorem targetOnlyPass_count (sourceFiles : List (String × FileEntry)) (p : String) :
    ∀ (targetFiles : List (String × FileEntry)),
      (targetOnlyPass sourceFiles targetFiles).count p =
        if lookupEntry sourceFiles p = none
        then (targetFiles.map (fun kv => kv.1)).count p else 0 := by
  intro targetFiles
  induction targetFiles with
  | nil =>
    simp [targetOnlyPass]
  | cons kv rest ih =>
    obtain ⟨k, e⟩ := kv
    simp only [targetOnlyPass, List.filter_cons] at ih ⊢
    by_cases hk : (lookupEntry sourceFiles k).isNone = true
    · simp only [hk, if_true, List.map_cons, List.count_cons]
      by_cases hp : p = k
      · subst hp
        have hnone : lookupEntry sourceFiles p = none :=
          Option.isNone_iff_eq_none.mp hk
        simp [hnone] at ih ⊢
        omega
      · have hp2 : k ≠ p := fun hh => hp hh.symm
        simp [hp, hp2] at ih ⊢
        omega
    · simp only [Bool.not_eq_true] at hk
      simp only [hk, Bool.false_eq_true, if_false, List.map_cons, List.count_cons]
      by_cases hp : p = k
      · subst hp
        have hsome : lookupEntry sourceFiles p ≠ none := by
          intro hcon
          rw [hcon] at hk
          simp at hk
        simp [hsome] at ih ⊢
        omega
      · have hp2 : k ≠ p := fun hh => hp hh.symm
        simp [hp, hp2] at ih ⊢
        omega

theorem runDiffCore_partition (env : HashEnv) (sc tc : Bool)
    (sourceFiles targetFiles : List (String × FileEntry)) (out : DiffResult)
    (hsn : (sourceFiles.map (fun kv => kv.1)).Nodup)
    (htn : (targetFiles.map (fun kv => kv.1)).Nodup)
    (h : runDiffCore env sc tc sourceFiles targetFiles = .ok out) (p : String) :
    (allPaths out).count p =
      if p ∈ sourceFiles.map (fun kv => kv.1) ∨ p ∈ targetFiles.map (fun kv => kv.1)
      then 1 else 0 := by
  unfold runDiffCore at h
  cases hsp : sourcePass env sc tc targetFiles sourceFiles with
  | error e => simp only [hsp] at h; exact Except.noConfusion h
  | ok trip =>
    obtain ⟨idl, os, df⟩ := trip
    simp only [hsp, Except.ok.injEq] at h
    subst h
    have hsrc := sourcePass_count env sc tc targetFiles p sourceFiles idl os df hsp
    have htgt := targetOnlyPass_count sourceFiles p targetFiles
    have p1 : ((sortBy (fun a b => decide (a.path < b.path)) idl).map
          (fun f => f.path)).count p = (idl.map (fun f => f.path)).count p :=
      ((sortBy_perm _ idl).map (fun f => f.path)).count_eq p
    have p2 : (sortBy (fun a b => decide (a < b)) os).count p = os.count p :=
      (sortBy_perm _ os).count_eq p
    have p3 : (sortBy (fun a b => decide (a < b))
          (targetOnlyPass sourceFiles targetFiles)).count p =
        (targetOnlyPass sourceFiles targetFiles).count p :=
      (sortBy_perm _ _).count_eq p
    have p4 : ((sortBy (fun a b => decide (a.path < b.path)) df).map
          (fun m => m.path)).count p = (df.map (fun m => m.path)).count p :=
      ((sortBy_perm _ df).map (fun m => m.path)).count_eq p
    simp only [List.count_append] at hsrc
    simp only [allPaths, List.count_append]
    rw [p1, p2, p3, p4, htgt]
    by_cases hps : p ∈ sourceFiles.map (fun kv => kv.1)
    · have h1 : (sourceFiles.map (fun kv => kv.1)).count p = 1 :=
        List.count_eq_one_of_mem hsn hps
      have h2 : lookupEntry sourceFiles p ≠ none := by
        rw [Ne, lookupEntry_eq_none_iff]
        simpa using hps
      rw [if_neg h2, if_pos (Or.inl hps)]
      omega
    · have h1 : (sourceFiles.map (fun kv => kv.1)).count p = 0 :=
        List.count_eq_zero_of_not_mem hps
      have h2 : lookupEntry sourceFiles p = none :=
        (lookupEntry_eq_none_iff _ _).mpr hps
      rw [if_pos h2]
      by_cases hpt : p ∈ targetFiles.map (fun kv => kv.1)
      · have h3 := List.count_eq_one_of_mem htn hpt
        rw [if_pos (Or.inr hpt)]
        omega
      · have h3 := List.count_eq_zero_of_not_mem hpt
        rw [if_neg (by tauto)]
        omega

/-! ## Remote asset lister (`GetFilesInDirectory`, `nexus/nexus.go`) -/

/-- One page of the search endpoint, `SearchAssetsResponse` of
`nexus/nexus.go`. -/
structure SearchAssetsResponse where
  items : List Asset
  continuationToken : String
deriving DecidableEq

/-- The per-page filter inside the loop of `GetFilesInDirectory`: keep
items whose path starts with the trailing-slash-trimmed directory path,
or all items when that path is empty. -/
def pageKeep (normalizedDirPath : String) (items : List Asset) : List Asset :=
  items.filter (fun item =>
    normalizedDirPath == "" || goStartsWith item.path normalizedDirPath)

/-- The search loop of `GetFilesInDirectory`.  `server` is the oracle
for one `GET .../search/assets` round-trip, keyed by the continuation
token sent (`""` on the first request); transport errors and non-200
statuses are its `.error` outcomes.  The Go loop terminates only through
an empty continuation token, so the embedding carries fuel; every claim
proved about it supplies enough fuel for the page chain at hand. -/
def getFilesLoop (server : String → Except String SearchAssetsResponse)
    (normalizedDirPath : String) :
    Nat → String → List Asset → Except String (List Asset)
  | 0, _, _ => .error "out of fuel"
  | fuel + 1, token, acc =>
    match server token with
    | .error e => .error e
    | .ok resp =>
      if resp.continuationToken = "" then
        .ok (acc ++ pageKeep normalizedDirPath resp.items)
      else
        getFilesLoop server normalizedDirPath fuel resp.continuationToken
          (acc ++ pageKeep normalizedDirPath resp.items)

/-- Embeds `GetFilesInDirectory` of `nexus/nexus.go`: start with an empty
token and an empty accumulator, filtering against
`strings.TrimSuffix(dirPath, "/")`. -/
def GetFilesInDirectory (server : String → Except String SearchAssetsResponse)
    (dirPath : String) (fuel : Nat) : Except String (List Asset) :=
  getFilesLoop server (trimSuffixSlash dirPath) fuel "" []

/-- The server serves the given page chain: fetching with the given
token yields the first page, and fetching with each page's continuation
token yields the following page. -/
def ServesChain (server : String → Except String SearchAssetsResponse) :
    List SearchAssetsResponse → String → Prop
  | [], _ => True
  | p :: rest, token => server token = .ok p ∧ ServesChain server rest p.continuationToken

/-- Every page except the last carries a non-empty continuation token;
the last page's token is empty. -/
def TokensTerminate : List SearchAssetsResponse → Prop
  | [] => False
  | [p] => p.continuationToken = ""
  | p :: q :: rest => p.continuationToken ≠ "" ∧ TokensTerminate (q :: rest)

theorem getFilesLoop_chain (server : String → Except String SearchAssetsResponse)
    (np : String) :
    ∀ (pages : List SearchAssetsResponse) (fuel : Nat) (token : String)
      (acc : List Asset),
      ServesChain server pages token → TokensTerminate pages →
      pages.length ≤ fuel →
      getFilesLoop server np fuel token acc =
        .ok (acc ++ (pages.map (fun page => pageKeep np page.items)).flatten) := by
  intro pages
  induction pages with
  | nil => intro fuel token acc _ ht _; exact absurd ht id
  | cons page rest ih =>
    intro fuel token acc hchain ht hfuel
    obtain ⟨hserve, hrest⟩ := hchain
    cases fuel with
    | zero => simp at hfuel
    | succ f =>
      simp only [getFilesLoop, hserve]
      cases rest with
      | nil =>
        have hterm : page.continuationToken = "" := ht
        simp [hterm]
      | cons q qs =>
        have hne : page.continuationToken ≠ "" := ht.1
        rw [if_neg hne]
        rw [ih f page.continuationToken _ hrest ht.2 (by simpa using Nat.lt_succ_iff.mp (Nat.lt_of_lt_of_le (by simp) hfuel))]
        simp

/-! ## Transfer engine (`runSync`, `cmd/sync/sync.go`) -/

/-- Oracles for the two target-side effects of the sync transfer loop:
`fileExists path` is `targetClient.FileExists(targetRepo, path)` (a HEAD
round-trip), and `transfer a` is
`sourceClient.TransferFile(targetClient, sourceRepo, targetRepo, a, false)`
(download from source, upload to target). -/
structure SyncEnv where
  fileExists : String → Except String Bool
  transfer : Asset → Except String Unit

/-- Outcome of the transfer loop: the two counters of `runSync` plus the
paths for which a transfer (download + upload) call was issued. -/
structure SyncTally where
  transferred : Nat
  skipped : Nat
  uploads : List String
deriving DecidableEq

/-- The transfer loop of `runSync` (`cmd/sync/sync.go`): for each source
asset, when `skipExisting` is set, probe existence at the target — a
probe error is logged and treated as "does not exist", a positive answer
skips the asset — otherwise transfer the asset, any transfer error
aborting the whole sync. -/
def syncLoop (env : SyncEnv) (skipExisting : Bool) :
    List Asset → Except String SyncTally
  | [] => .ok ⟨0, 0, []⟩
  | file :: rest =>
    let transferStep : Except String SyncTally :=
      match env.transfer file with
      | .error e => .error ("failed to transfer file " ++ file.path ++ ": " ++ e)
      | .ok _ =>
        match syncLoop env skipExisting rest with
        | .error e => .error e
        | .ok t => .ok ⟨t.transferred + 1, t.skipped, file.path :: t.uploads⟩
    if skipExisting then
      match env.fileExists file.path with
      | .ok true =>
        match syncLoop env skipExisting rest with
        | .error e => .error e
        | .ok t => .ok ⟨t.transferred, t.skipped + 1, t.uploads⟩
      | .ok false => transferStep
      | .error _ => transferStep
    else transferStep

theorem syncLoop_allExist (env : SyncEnv) :
    ∀ (files : List Asset),
      (∀ a ∈ files, env.fileExists a.path = .ok true) →
      syncLoop env true files = .ok ⟨0, files.length, []⟩ := by
  intro files
  induction files with
  | nil => intro _; rfl
  | cons f rest ih =>
    intro hall
    have hf := hall f (by simp)
    simp only [syncLoop, hf, if_true]
    rw [ih (fun a ha => hall a (by simp [ha]))]
    simp

theorem syncLoop_probeError (env : SyncEnv) (a : Asset) (rest : List Asset)
    (e : String) (t : SyncTally)
    (hfe : env.fileExists a.path = .error e)
    (htr : env.transfer a = .ok ())
    (hrest : syncLoop env true rest = .ok t) :
    syncLoop env true (a :: rest) =
      .ok ⟨t.transferred + 1, t.skipped, a.path :: t.uploads⟩ := by
  simp only [syncLoop, hfe, htr, hrest, if_true]

/-! ## Decidability of `Except` equality (for concrete witnesses) -/

instance {ε α : Type} [DecidableEq ε] [DecidableEq α] :
    DecidableEq (Except ε α) := fun x y =>
  match x, y with
  | .error a, .error b =>
    if h : a = b then .isTrue (by rw [h]) else .isFalse (by simp [h])
  | .ok a, .ok b =>
    if h : a = b then .isTrue (by rw [h]) else .isFalse (by simp [h])
  | .error _, .ok _ => .isFalse (by simp)
  | .ok _, .error _ => .isFalse (by simp)

/-! ## Concrete fixtures used by the witnesses -/

/-- A hashing environment whose oracles are never consulted by the
witnesses that use it. -/
def unusedHashEnv : HashEnv :=
  ⟨fun _ _ => .error "unused", fun _ _ => .error "unused"⟩

def assetA : Asset := ⟨"dir/a.txt", "http://src/a", some [("SHA256", "AB"), ("md5", "")]⟩

def assetB : Asset := ⟨"dir/a.txt", "http://tgt/a", some [("sha256", "ab")]⟩

def assetC : Asset := ⟨"dir/c.bin", "http://src/c", none⟩

def entryA : FileEntry := ⟨"a.txt", some assetA, ""⟩

def entryB : FileEntry := ⟨"a.txt", some assetB, ""⟩

def entryL : FileEntry := ⟨"y", none, "/local/y"⟩

def entryL2 : FileEntry := ⟨"z", none, "/local/z"⟩

def srcMap : List (String × FileEntry) := [("x", entryA), ("y", entryL)]

def tgtMap : List (String × FileEntry) := [("x", entryB), ("z", entryL2)]

def pageOne : SearchAssetsResponse := ⟨[assetA], "tok1"⟩

def pageTwo : SearchAssetsResponse := ⟨[assetC], ""⟩

/-- A two-page search endpoint: the first request returns `pageOne`,
the continuation request returns `pageTwo`. -/
def twoPageServer : String → Except String SearchAssetsResponse :=
  fun token =>
    if token = "" then .ok pageOne
    else if token = "tok1" then .ok pageTwo
    else .error "unknown token"

/-- Hashing environment for the no-reported-checksum witness: local
hashing answers with an uppercase digest on one side and a lowercase one
on the other. -/
def localHashEnv : HashEnv :=
  ⟨fun _ _ => .error "unused",
   fun path _ => if path = "/s" then .ok "AB" else .ok "ab"⟩

def localSource : FileEntry := ⟨"f", none, "/s"⟩

def localTarget : FileEntry := ⟨"f", none, "/t"⟩

/-- Sync environment in which every existence probe answers "exists";
its transfer oracle fails, so a transfer call would be visible. -/
def allExistEnv : SyncEnv :=
  ⟨fun _ => .ok true, fun _ => .error "unexpected transfer"⟩

/-- Sync environment in which every existence probe fails and every
transfer succeeds. -/
def probeDownEnv : SyncEnv :=
  ⟨fun _ => .error "probe down", fun _ => .ok ()⟩

/-! ## The claims -/

/-- C1: for a matched pair whose reported checksum maps both contain a
non-empty digest for the same algorithm — the first such algorithm in
the order sha256, sha1, md5 — `comparableHashes` returns that algorithm
and the two digests recorded in the normalized reported maps, with an
empty compute-call list: no content download or hash computation happens
on either side, whatever the hashing oracles are. -/
theorem claim1_checksum_shortcircuit (env : HashEnv) (source target : FileEntry)
    (sc tc : Bool) (algorithm : String)
    (h : hashPreference.find? (fun a =>
        mapGet (reportedHashes source) a != "" &&
        mapGet (reportedHashes target) a != "") = some algorithm) :
    comparableHashes env source target sc tc =
      .ok (algorithm, mapGet (reportedHashes source) algorithm,
           mapGet (reportedHashes target) algorithm, []) :=
  comparableHashes_shortCircuit env source target sc tc algorithm h

theorem claim1_witness :
    hashPreference.find? (fun a =>
        mapGet (reportedHashes entryA) a != "" &&
        mapGet (reportedHashes entryB) a != "") = some "sha256" ∧
    comparableHashes unusedHashEnv entryA entryB true true =
      .ok ("sha256", mapGet (reportedHashes entryA) "sha256",
           mapGet (reportedHashes entryB) "sha256", []) :=
  ⟨by decide,
   claim1_checksum_shortcircuit unusedHashEnv entryA entryB true true "sha256" (by decide)⟩

/-- C2: when `runDiffCore` succeeds, its four lists partition the union
of the two key sets: every relative path of either input map is counted
exactly once across `identical`, `only_source`, `only_target` and
`different`, and any other path zero times. -/
theorem claim2_diff_partition (env : HashEnv) (sc tc : Bool)
    (sourceFiles targetFiles : List (String × FileEntry)) (out : DiffResult)
    (hsn : (sourceFiles.map (fun kv => kv.1)).Nodup)
    (htn : (targetFiles.map (fun kv => kv.1)).Nodup)
    (h : runDiffCore env sc tc sourceFiles targetFiles = .ok out) (p : String) :
    (allPaths out).count p =
      if p ∈ sourceFiles.map (fun kv => kv.1) ∨ p ∈ targetFiles.map (fun kv => kv.1)
      then 1 else 0 :=
  runDiffCore_partition env sc tc sourceFiles targetFiles out hsn htn h p

theorem claim2_witness :
    (allPaths ⟨[⟨"x", "sha256", "ab"⟩], ["y"], ["z"], []⟩).count "x" =
      (if "x" ∈ srcMap.map (fun kv => kv.1) ∨ "x" ∈ tgtMap.map (fun kv => kv.1)
       then 1 else 0) :=
  claim2_diff_partition unusedHashEnv true true srcMap tgtMap
    ⟨[⟨"x", "sha256", "ab"⟩], ["y"], ["z"], []⟩
    (by decide) (by decide) (by decide) "x"

/-- C3: every asset the remote lister returns is — as a whole record,
its checksum map included — one of the items of some served page, and
the checksum resolver reads that map: on an asset-backed entry,
`reportedHashes` (the view `comparableHashes` compares through) is
exactly the normalization of the asset's checksum map. -/
theorem claim3_asset_checksum_passthrough
    (server : String → Except String SearchAssetsResponse)
    (pages : List SearchAssetsResponse) (dirPath : String) (fuel : Nat)
    (result : List Asset)
    (hchain : ServesChain server pages "") (ht : TokensTerminate pages)
    (hfuel : pages.length ≤ fuel)
    (hrun : GetFilesInDirectory server dirPath fuel = .ok result) :
    (∀ a ∈ result, ∃ page ∈ pages, a ∈ page.items) ∧
    (∀ (rp lp : String) (a : Asset) (m : List (String × String)),
      a.checksum = some m →
      reportedHashes ⟨rp, some a, lp⟩ = normalizeChecksumMap m) := by
  constructor
  · intro a ha
    have hres := getFilesLoop_chain server (trimSuffixSlash dirPath) pages fuel "" []
      hchain ht hfuel
    unfold GetFilesInDirectory at hrun
    rw [hres] at hrun
    simp only [Except.ok.injEq] at hrun
    subst hrun
    simp only [List.nil_append] at ha
    obtain ⟨l, hl, hal⟩ := List.mem_flatten.mp ha
    obtain ⟨page, hpage, rfl⟩ := List.mem_map.mp hl
    exact ⟨page, hpage, List.mem_of_mem_filter hal⟩
  · intro rp lp a m hm
    simp [reportedHashes, hm]

theorem claim3_witness :
    ∃ page ∈ [pageOne, pageTwo], assetA ∈ page.items := by
  have hc : ServesChain twoPageServer [pageOne, pageTwo] "" :=
    ⟨by decide, by decide, trivial⟩
  have ht : TokensTerminate [pageOne, pageTwo] := ⟨by decide, rfl⟩
  exact (claim3_asset_checksum_passthrough twoPageServer [pageOne, pageTwo] "dir" 2
    (pageKeep "dir" pageOne.items ++ pageKeep "dir" pageTwo.items)
    hc ht (by decide) (by decide)).1 assetA (by decide)

/-- C4: over a page chain in which every page but the last returns a
non-empty continuation token and the last an empty one,
`GetFilesInDirectory` returns exactly the concatenation, page by page,
of the items whose path starts with the trailing-slash-trimmed prefix
(all items when that prefix is empty): no page dropped, no item
duplicated, stopping at the first empty token. -/
theorem claim4_pagination_concat
    (server : String → Except String SearchAssetsResponse)
    (pages : List SearchAssetsResponse) (dirPath : String) (fuel : Nat)
    (hchain : ServesChain server pages "") (ht : TokensTerminate pages)
    (hfuel : pages.length ≤ fuel) :
    GetFilesInDirectory server dirPath fuel =
      .ok ((pages.map
        (fun page => pageKeep (trimSuffixSlash dirPath) page.items)).flatten) := by
  unfold GetFilesInDirectory
  simpa using getFilesLoop_chain server (trimSuffixSlash dirPath) pages fuel "" []
    hchain ht hfuel

theorem claim4_witness :
    GetFilesInDirectory twoPageServer "dir" 2 =
      .ok (([pageOne, pageTwo].map
        (fun page => pageKeep (trimSuffixSlash "dir") page.items)).flatten) := by
  have hc : ServesChain twoPageServer [pageOne, pageTwo] "" :=
    ⟨by decide, by decide, trivial⟩
  have ht : TokensTerminate [pageOne, pageTwo] := ⟨by decide, rfl⟩
  exact claim4_pagination_concat twoPageServer [pageOne, pageTwo] "dir" 2 hc ht
    (by decide)

/-- C5: for a matched pair in which neither side reports any checksum,
the resolver chooses sha256 and computes it for both sides (one compute
call per side, with algorithm sha256); in the `runDiff` loop such a pair
is classified identical exactly when the two computed digests agree
under case-insensitive comparison. -/
theorem claim5_default_sha256 (env : HashEnv) (p : String)
    (source target : FileEntry) (sc tc : Bool) (h1 h2 : String)
    (hs : reportedHashes source = []) (ht : reportedHashes target = [])
    (hcs : computeHashForEntry env source sc "sha256" = .ok h1)
    (hct : computeHashForEntry env target tc "sha256" = .ok h2) :
    comparableHashes env source target sc tc =
      .ok ("sha256", goToLower h1, goToLower h2,
           [(source, "sha256"), (target, "sha256")]) ∧
    sourcePass env sc tc [(p, target)] [(p, source)] =
      .ok (if goEqualFold h1 h2
           then ([⟨p, "sha256", goToLower h1⟩], [], [])
           else ([], [], [⟨p, "sha256", goToLower h1, goToLower h2⟩])) := by
  have hch := comparableHashes_noReported env source target sc tc h1 h2 hs ht hcs hct
  refine ⟨hch, ?_⟩
  have hl : lookupEntry [(p, target)] p = some target := by
    simp [lookupEntry]
  simp only [sourcePass, hl, hch]
  by_cases heq : goEqualFold h1 h2 = true
  · rw [if_pos (by rw [goEqualFold_toLower]; exact heq)]
    simp [heq, goToLower_toLower]
  · rw [if_neg (by rw [goEqualFold_toLower]; simpa using heq)]
    simp only [Bool.not_eq_true] at heq
    simp [heq, goToLower_toLower]

theorem claim5_witness :
    reportedHashes localSource = [] ∧
    computeHashForEntry localHashEnv localSource true "sha256" = .ok "AB" ∧
    comparableHashes localHashEnv localSource localTarget true true =
      .ok ("sha256", goToLower "AB", goToLower "ab",
           [(localSource, "sha256"), (localTarget, "sha256")]) ∧
    sourcePass localHashEnv true true [("f", localTarget)] [("f", localSource)] =
      .ok (if goEqualFold "AB" "ab"
           then ([⟨"f", "sha256", goToLower "AB"⟩], [], [])
           else ([], [], [⟨"f", "sha256", goToLower "AB", goToLower "ab"⟩])) := by
  have h := claim5_default_sha256 localHashEnv "f" localSource localTarget true true
    "AB" "ab" (by decide) (by decide) (by decide) (by decide)
  exact ⟨by decide, by decide, h.1, h.2⟩

/-- C6: syncing with skip-existing enabled against a target whose
existence probe answers true for every source path skips every asset:
zero transferred, skipped equal to the number of source assets, and no
transfer (download/upload) call issued. -/
theorem claim6_skip_all_existing (env : SyncEnv) (files : List Asset)
    (hall : ∀ a ∈ files, env.fileExists a.path = .ok true) :
    syncLoop env true files = .ok ⟨0, files.length, []⟩ :=
  syncLoop_allExist env files hall

theorem claim6_witness :
    syncLoop allExistEnv true [assetA, assetC] = .ok ⟨0, 2, []⟩ :=
  claim6_skip_all_existing allExistEnv [assetA, assetC] (fun _ _ => rfl)

/-- C7: with skip-existing enabled, an asset whose target existence
probe errors is not skipped and does not abort the run: it is treated as
absent and transferred, the transferred counter growing by one and the
asset's path joining the issued transfers, the rest of the loop
continuing as usual. -/
theorem claim7_probe_error_nonfatal (env : SyncEnv) (a : Asset)
    (rest : List Asset) (e : String) (t : SyncTally)
    (hfe : env.fileExists a.path = .error e)
    (htr : env.transfer a = .ok ())
    (hrest : syncLoop env true rest = .ok t) :
    syncLoop env true (a :: rest) =
      .ok ⟨t.transferred + 1, t.skipped, a.path :: t.uploads⟩ :=
  syncLoop_probeError env a rest e t hfe htr hrest

theorem claim7_witness :
    syncLoop probeDownEnv true [assetA] = .ok ⟨1, 0, ["dir/a.txt"]⟩ :=
  claim7_probe_error_nonfatal probeDownEnv assetA [] "probe down" ⟨0, 0, []⟩
    rfl rfl rfl

/-- C8 as stated is false at asset path "/a" with root "": the claimed
rule (strip the normalized root plus trailing slash whenever the asset
path starts with it) yields "a", while the implementation returns the
asset path unchanged because an empty normalized root short-circuits. -/
theorem claim8_counterexample :
    relativeAssetPath "/a" "" ≠ relativeAssetPathClaimed "/a" "" := by decide

/-- C8 amended: for every root whose normalized form is non-empty,
`relativeAssetPath` behaves exactly as claimed (strip the normalized
root plus slash; base name on exact match; unchanged otherwise); when
the normalized root is empty the asset path is returned unchanged (up to
backslash conversion).  The claim's two concrete examples hold. -/
theorem claim8_relativize_amended :
    (∀ assetPath root, normalizeRepoPath root ≠ "" →
      relativeAssetPath assetPath root = relativeAssetPathClaimed assetPath root) ∧
    (∀ assetPath root, normalizeRepoPath root = "" →
      relativeAssetPath assetPath root = backslashToSlash assetPath) ∧
    relativeAssetPath "releases/v1/file.txt" "releases/v1" = "file.txt" ∧
    relativeAssetPath "releases/v1" "releases/v1" = "v1" := by
  refine ⟨relativeAssetPath_agrees, ?_, by decide, by decide⟩
  intro assetPath root h
  simp [relativeAssetPath, h]

theorem claim8_witness :
    normalizeRepoPath "releases/v1" ≠ "" ∧
    relativeAssetPath "some/other" "releases/v1" =
      relativeAssetPathClaimed "some/other" "releases/v1" :=
  ⟨by decide, claim8_relativize_amended.1 "some/other" "releases/v1" (by decide)⟩

/-- C9: the exclusion filter removes exactly the entries whose key
starts with the exclude path plus "/" and keeps every other entry — in
particular an entry whose key equals the exclude path exactly — shown in
general and on the claim's concrete instance. -/
theorem claim9_exclusion_filter :
    (∀ (files : List (String × FileEntry)) (excludePath k : String) (v : FileEntry),
      (k, v) ∈ filterExcludedFiles files excludePath ↔
        ((k, v) ∈ files ∧ goStartsWith k (excludePath ++ "/") = false)) ∧
    filterExcludedFiles
        [("a/b.txt", entryL), ("a/c/d.txt", entryL), ("a", entryL)] "a" =
      [("a", entryL)] := by
  constructor
  · intro files E k v
    simp [filterExcludedFiles, List.mem_filter]
  · decide

/-- C10: checksum-map normalization matches algorithm keys
case-insensitively, treats empty digest values as absent, and lowercases
every digest value it keeps (so every digest the resolver reads from a
reported map is lowercase); a digest reported under "SHA256" is found
under "sha256". -/
theorem claim10_normalization :
    (∀ (m : List (String × String)) (k v : String),
      (k, v) ∈ normalizeChecksumMap m ↔
        ∃ k0 v0, (k0, v0) ∈ m ∧ v0 ≠ "" ∧ k = goToLower k0 ∧ v = goToLower v0) ∧
    (∀ (m : List (String × String)) (k v : String),
      (k, v) ∈ normalizeChecksumMap m → goToLower v = v) ∧
    mapGet (normalizeChecksumMap [("SHA256", "ABCDEF")]) "sha256" = "abcdef" := by
  refine ⟨?_, ?_, by decide⟩
  · intro m k v
    constructor
    · intro h
      simp only [normalizeChecksumMap, List.mem_map, List.mem_filter] at h
      obtain ⟨⟨k0, v0⟩, ⟨hm, hne⟩, heq⟩ := h
      simp only [Prod.mk.injEq] at heq
      exact ⟨k0, v0, hm, by simpa using hne, heq.1.symm, heq.2.symm⟩
    · rintro ⟨k0, v0, hm, hne, rfl, rfl⟩
      simp only [normalizeChecksumMap, List.mem_map, List.mem_filter]
      exact ⟨(k0, v0), ⟨hm, by simpa using hne⟩, rfl⟩
  · intro m k v h
    simp only [normalizeChecksumMap, List.mem_map] at h
    obtain ⟨kv, _, heq⟩ := h
    simp only [Prod.mk.injEq] at heq
    rw [← heq.2, goToLower_toLower]

theorem claim10_witness :
    ("a", "b1c") ∈ normalizeChecksumMap [("A", "B1C")] ∧
    goToLower "b1c" = "b1c" :=
  ⟨by decide, claim10_normalization.2.1 [("A", "B1C")] "a" "b1c" (by decide)⟩

end NexusUtil
